import Mathlib

/-!
Shallow embedding of the koe voice-dictation utility's recording core:
the hotkey listener (src/hotkey_listener.py), the audio recorder
(src/audio_recorder.py), the history manager (src/history_manager.py)
and the orchestrator (main.py), together with theorems settling the
specification claims about them.
-/

namespace Koe

/-! ## Hotkey listener (src/hotkey_listener.py) -/

/-- Normalized modifier identities, as `HotkeyListener._on_press` normalizes
`cmd_l`/`cmd_r` to `cmd` and so on before storing them in
`_pressed_modifiers`. -/
inductive MKey where
  | cmd
  | shift
  | ctrl
  | alt
deriving DecidableEq

/-- The physical variant of a modifier key event: the plain, left or right
key, all normalized to the same `MKey` by the listener. -/
inductive Side where
  | plain
  | left
  | right
deriving DecidableEq

/-- The named non-modifier keys of `HotkeyListener._key_map`. -/
inductive SKey where
  | space
  | enter
  | tab
  | esc
  | backspace
deriving DecidableEq

/-- A raw key as delivered by the input subsystem: a modifier variant
(`keyboard.Key.cmd_l`, ...), a named special key (`keyboard.Key.space`, ...),
or a character key (`keyboard.KeyCode`). -/
inductive RawKey where
  | modK (m : MKey) (s : Side)
  | sK (k : SKey)
  | ch (c : Char)
deriving DecidableEq

/-- The resolved trigger key, as `_get_trigger_key` returns it: a named key
from `_key_map`, a character key, or nothing when the configured name
resolves to neither. -/
inductive Trig where
  | sk (k : SKey)
  | chr (c : Char)
deriving DecidableEq

/-- The recording mode of the listener. -/
inductive Mode where
  | hold
  | toggle
deriving DecidableEq

/-- Listener configuration: the required modifiers (already resolved through
`_modifier_map` by `_get_required_modifiers`), the resolved trigger key and
the mode. -/
structure HKConfig where
  requiredMods : List MKey
  trigger : Option Trig
  mode : Mode

/-- The set `_pressed_modifiers`. It only ever holds normalized modifiers,
so four booleans model it exactly. -/
structure Pressed where
  cmd : Bool
  shift : Bool
  ctrl : Bool
  alt : Bool
deriving DecidableEq

/-- Membership in `_pressed_modifiers`. -/
def Pressed.get (p : Pressed) (m : MKey) : Bool :=
  match m with
  | .cmd => p.cmd
  | .shift => p.shift
  | .ctrl => p.ctrl
  | .alt => p.alt

/-- Insert or discard a normalized modifier. -/
def Pressed.set (p : Pressed) (m : MKey) (b : Bool) : Pressed :=
  match m with
  | .cmd => { p with cmd := b }
  | .shift => { p with shift := b }
  | .ctrl => { p with ctrl := b }
  | .alt => { p with alt := b }

/-- The listener's mutable state: `_pressed_modifiers`, `_is_recording` and
`_hotkey_active`. -/
structure HKState where
  pressed : Pressed
  isRecording : Bool
  hotkeyActive : Bool
deriving DecidableEq

/-- The state right after `start()`: nothing pressed, not recording, not
active. -/
def HKState.init : HKState :=
  { pressed := ⟨false, false, false, false⟩, isRecording := false, hotkeyActive := false }

/-- The edge events the listener emits through `on_activate` /
`on_deactivate`. -/
inductive Edge where
  | activate
  | deactivate
deriving DecidableEq

/-- A raw key event. -/
inductive KEvent where
  | press (k : RawKey)
  | release (k : RawKey)
deriving DecidableEq

/-- `_is_trigger_key`: the event key equals the resolved trigger. Named keys
compare by identity; character keys compare by their character; a named key
never equals a character trigger and vice versa (the `hasattr` guards in the
source). -/
def isTriggerKey (cfg : HKConfig) (k : RawKey) : Bool :=
  match cfg.trigger with
  | none => false
  | some (.sk t) =>
    match k with
    | .sK k' => k' = t
    | _ => false
  | some (.chr c) =>
    match k with
    | .ch c' => c' = c
    | _ => false

/-- `_check_modifiers`: every required modifier is pressed. The source's
left/right-variant fallback loop never fires because `_pressed_modifiers`
only ever holds normalized keys, so plain membership is the exact
behaviour. -/
def checkMods (cfg : HKConfig) (s : HKState) : Bool :=
  cfg.requiredMods.all (fun m => s.pressed.get m)

/-- The modifier-tracking prelude of `_on_press`: a modifier variant is
normalized and added; any other key leaves the set unchanged. -/
def trackPress (s : HKState) (k : RawKey) : HKState :=
  match k with
  | .modK m _ => { s with pressed := s.pressed.set m true }
  | _ => s

/-- The modifier-tracking prelude of `_on_release`: a modifier variant is
normalized and discarded. -/
def trackRelease (s : HKState) (k : RawKey) : HKState :=
  match k with
  | .modK m _ => { s with pressed := s.pressed.set m false }
  | _ => s

/-- `HotkeyListener._on_press`: track modifiers, then, only when the pressed
key is the trigger key and all modifiers are down and the hotkey is not
already active, fire an edge according to the mode. -/
def onPress (cfg : HKConfig) (s : HKState) (k : RawKey) : HKState × List Edge :=
  let s1 := trackPress s k
  if isTriggerKey cfg k && checkMods cfg s1 then
    if s1.hotkeyActive then (s1, [])
    else
      match cfg.mode with
      | .hold => ({ s1 with hotkeyActive := true, isRecording := true }, [.activate])
      | .toggle =>
        if s1.isRecording then
          ({ s1 with hotkeyActive := true, isRecording := false }, [.deactivate])
        else
          ({ s1 with hotkeyActive := true, isRecording := true }, [.activate])
  else (s1, [])

/-- `HotkeyListener._on_release`: track modifiers, then, only when the
released key is the trigger key and the hotkey is active, clear the active
flag and, in hold mode while recording, fire a deactivate edge. -/
def onRelease (cfg : HKConfig) (s : HKState) (k : RawKey) : HKState × List Edge :=
  let s1 := trackRelease s k
  if isTriggerKey cfg k then
    if s1.hotkeyActive then
      if cfg.mode = .hold && s1.isRecording then
        ({ s1 with hotkeyActive := false, isRecording := false }, [.deactivate])
      else
        ({ s1 with hotkeyActive := false }, [])
    else (s1, [])
  else (s1, [])

/-- One key event through the listener. -/
def hkStep (cfg : HKConfig) (s : HKState) : KEvent → HKState × List Edge
  | .press k => onPress cfg s k
  | .release k => onRelease cfg s k

/-- A whole event sequence through the listener, collecting the emitted
edges in order. -/
def hkRun (cfg : HKConfig) (s : HKState) : List KEvent → HKState × List Edge
  | [] => (s, [])
  | e :: es =>
    ((hkRun cfg (hkStep cfg s e).1 es).1,
      (hkStep cfg s e).2 ++ (hkRun cfg (hkStep cfg s e).1 es).2)

/-- A rising edge as the code detects one: a press of the trigger key while
all required modifiers are down and the hotkey is not already active. -/
def risingAtPress (cfg : HKConfig) (s : HKState) : KEvent → Bool
  | .press k => isTriggerKey cfg k && checkMods cfg (trackPress s k) && !s.hotkeyActive
  | .release _ => false

/-- A falling edge as the code detects one in hold mode: a release of the
trigger key while the hotkey is active. -/
def fallingAtRelease (cfg : HKConfig) (s : HKState) : KEvent → Bool
  | .press _ => false
  | .release k => isTriggerKey cfg k && s.hotkeyActive

/-- How many code-detected rising edges an event sequence contains. -/
def countRising (cfg : HKConfig) (s : HKState) : List KEvent → Nat
  | [] => 0
  | e :: es =>
    (if risingAtPress cfg s e then 1 else 0) + countRising cfg (hkStep cfg s e).1 es

/-- How many code-detected falling edges an event sequence contains. -/
def countFalling (cfg : HKConfig) (s : HKState) : List KEvent → Nat
  | [] => 0
  | e :: es =>
    (if fallingAtRelease cfg s e then 1 else 0) + countFalling cfg (hkStep cfg s e).1 es

/-- The strictly alternating edge list whose first element depends on `b`:
deactivate first when `b` is true, activate first otherwise. -/
def altFrom (b : Bool) : Nat → List Edge
  | 0 => []
  | n + 1 => (if b then Edge.deactivate else Edge.activate) :: altFrom (!b) n

/-- The strictly alternating edge list starting with activate. -/
def altEdges (n : Nat) : List Edge :=
  altFrom false n

/-! ### Specification-side ghost state for combo satisfaction

The spec defines combo satisfaction over the full key state, "recomputed on
every individual key event": all configured modifiers pressed AND the
trigger key down. The code does not track "trigger key down", so this is
instrumentation written from the spec's words, used to state the claims as
given. -/

/-- Ghost state: the normalized pressed-modifier set plus whether the
trigger key is physically down. -/
structure Ghost where
  pressed : Pressed
  trigDown : Bool

/-- Ghost state before any event. -/
def Ghost.init : Ghost :=
  { pressed := ⟨false, false, false, false⟩, trigDown := false }

/-- Track one event in the ghost state. -/
def ghostStep (cfg : HKConfig) (g : Ghost) : KEvent → Ghost
  | .press k =>
    { pressed := match k with | .modK m _ => g.pressed.set m true | _ => g.pressed,
      trigDown := if isTriggerKey cfg k then true else g.trigDown }
  | .release k =>
    { pressed := match k with | .modK m _ => g.pressed.set m false | _ => g.pressed,
      trigDown := if isTriggerKey cfg k then false else g.trigDown }

/-- Combo satisfaction in the spec's sense: all configured modifiers pressed
and the trigger key down. -/
def satisfiedG (cfg : HKConfig) (g : Ghost) : Bool :=
  cfg.requiredMods.all (fun m => g.pressed.get m) && g.trigDown

/-- Rising edges of spec-level combo satisfaction along an event sequence. -/
def ghostRising (cfg : HKConfig) (g : Ghost) : List KEvent → Nat
  | [] => 0
  | e :: es =>
    (if satisfiedG cfg g = false ∧ satisfiedG cfg (ghostStep cfg g e) = true then 1 else 0) +
      ghostRising cfg (ghostStep cfg g e) es

/-- Falling edges of spec-level combo satisfaction along an event sequence. -/
def ghostFalling (cfg : HKConfig) (g : Ghost) : List KEvent → Nat
  | [] => 0
  | e :: es =>
    (if satisfiedG cfg g = true ∧ satisfiedG cfg (ghostStep cfg g e) = false then 1 else 0) +
      ghostFalling cfg (ghostStep cfg g e) es

/-- The default combo of the application: cmd+shift plus the space trigger,
in hold mode. -/
def cfgHoldCS : HKConfig :=
  { requiredMods := [MKey.cmd, MKey.shift], trigger := some (Trig.sk SKey.space), mode := Mode.hold }

/-- The same combo in toggle mode. -/
def cfgToggleCS : HKConfig :=
  { requiredMods := [MKey.cmd, MKey.shift], trigger := some (Trig.sk SKey.space), mode := Mode.toggle }

/-- An event sequence whose spec-level rising edge is completed by a
modifier press after the trigger key is already down: space down, then
left-cmd, then left-shift. -/
def evsModLast : List KEvent :=
  [KEvent.press (RawKey.sK SKey.space),
    KEvent.press (RawKey.modK MKey.cmd Side.left),
    KEvent.press (RawKey.modK MKey.shift Side.left)]

/-! ## Audio recorder (src/audio_recorder.py)

Samples are modelled as rationals (the stream delivers float32 mono
frames); a chunk is one callback's frame block. The RMS value
`np.sqrt(np.mean(indata ** 2))` involves a square root, which has no exact
rational representative, so the recorder callback takes the RMS as an
argument that the theorems constrain by `rms * rms = meanSq chunk` and
`0 ≤ rms`. -/

/-- The recorder's state: configuration plus `_audio_data`, `_is_recording`
and whether an `on_amplitude` callback was supplied. -/
structure RecState where
  sampleRate : Nat
  channels : Nat
  audioData : List (List ℚ)
  isRecording : Bool
  hasAmpCallback : Bool
deriving DecidableEq

/-- The mean of the squared samples of a chunk, `np.mean(indata ** 2)`. -/
def meanSq (chunk : List ℚ) : ℚ :=
  (chunk.map (fun x => x * x)).sum / (chunk.length : ℚ)

/-- `AudioRecorder._audio_callback`: while recording, append the chunk and,
when an amplitude callback is present, emit `min(1.0, rms * 10)`; otherwise
do nothing. The emitted value is returned as an `Option`. -/
def audioCallback (s : RecState) (chunk : List ℚ) (rms : ℚ) : RecState × Option ℚ :=
  if s.isRecording then
    let s1 := { s with audioData := s.audioData ++ [chunk] }
    if s.hasAmpCallback then (s1, some (min 1 (rms * 10)))
    else (s1, none)
  else (s, none)

/-- `AudioRecorder.start`: a no-op while recording, otherwise reset the
buffer and set the flag (the device stream itself is an external effect). -/
def recorderStart (s : RecState) : RecState :=
  if s.isRecording then s
  else { s with audioData := [], isRecording := true }

/-- `AudioRecorder.stop`: nothing when not recording; otherwise clear the
flag, and with an empty buffer return nothing; otherwise concatenate the
chunks, clear the buffer, and reject the clip when it is shorter than half
the sample rate (`len(audio) < self.sample_rate * 0.5`, written without the
exact float `0.5` as `2 * len < sample_rate`). The returned clip stands for
the WAV file the source writes from exactly these samples. -/
def recorderStop (s : RecState) : Option (List ℚ) × RecState :=
  if s.isRecording = false then (none, s)
  else
    let s1 := { s with isRecording := false }
    if s1.audioData = [] then (none, s1)
    else
      let audio := s1.audioData.flatten
      let s2 := { s1 with audioData := [] }
      if 2 * audio.length < s.sampleRate then (none, s2)
      else (some audio, s2)

/-- `AudioRecorder.get_duration`: buffered frames over the sample rate. -/
def recorderDuration (s : RecState) : ℚ :=
  if s.audioData = [] then 0
  else ((s.audioData.map List.length).sum : ℚ) / (s.sampleRate : ℚ)

/-- The duration of a finished clip at a given sample rate. -/
def clipDuration (clip : List ℚ) (sr : Nat) : ℚ :=
  (clip.length : ℚ) / (sr : ℚ)

/-! ## History manager (src/history_manager.py)

Timestamps are integers on a single abstract timeline (the source stores
`CURRENT_TIMESTAMP` strings and compares them with a cutoff string);
`duration REAL` is carried as an integer since no claim computes with it.
The `id INTEGER PRIMARY KEY AUTOINCREMENT` column is modelled by a
`nextId` counter that deletions — `clear()` included — never reset, which
is exactly SQLite's AUTOINCREMENT guarantee that ids are never reused. -/

/-- One row of the `history` table. -/
structure HistoryEntry where
  id : Nat
  text : String
  duration : Int
  language : Option String
  createdAt : Int
deriving DecidableEq

/-- The manager's configuration: `max_items` and the retention window
(`timedelta(days=retention_days)` as a length on the model timeline). -/
structure HistConfig where
  maxItems : Nat
  retentionWindow : Int

/-- The persistent store: the table rows plus the AUTOINCREMENT sequence. -/
structure HistStore where
  entries : List HistoryEntry
  nextId : Nat
deriving DecidableEq

/-- A fresh database: no rows, ids starting at 1. -/
def initStore : HistStore :=
  { entries := [], nextId := 1 }

/-- Well-formedness the real table always has: row ids are distinct and
below the AUTOINCREMENT sequence. -/
def WFStore (s : HistStore) : Prop :=
  (s.entries.map HistoryEntry.id).Nodup ∧ ∀ e ∈ s.entries, e.id < s.nextId

/-- The `ORDER BY created_at DESC` order with ties broken by id descending,
which is the order the `idx_created_at` index scan yields: `keyLe a b` says
`a` sorts no later than `b`. -/
def keyLe (a b : HistoryEntry) : Prop :=
  b.createdAt < a.createdAt ∨ (b.createdAt = a.createdAt ∧ b.id ≤ a.id)

instance (a b : HistoryEntry) : Decidable (keyLe a b) := by
  unfold keyLe
  exact inferInstance

instance : IsTotal HistoryEntry keyLe :=
  ⟨fun a b => by
    unfold keyLe
    omega⟩

instance : IsTrans HistoryEntry keyLe :=
  ⟨fun a b c hab hbc => by
    unfold keyLe at *
    omega⟩

/-- `ORDER BY created_at DESC` (ties by id descending) as a sort. -/
def sortDesc (l : List HistoryEntry) : List HistoryEntry :=
  l.insertionSort keyLe

/-- The rows surviving the age pass of `cleanup()`: those whose
`created_at` is not older than `now − retentionWindow`. -/
def keptOf (cfg : HistConfig) (s : HistStore) (now : Int) : List HistoryEntry :=
  s.entries.filter (fun e => !(e.createdAt < now - cfg.retentionWindow))

/-- `HistoryManager.cleanup`: delete rows older than the cutoff, then delete
every row whose id is not among the `max_items` most recent
(`DELETE ... WHERE id NOT IN (SELECT id ... ORDER BY created_at DESC LIMIT ?)`). -/
def cleanupH (cfg : HistConfig) (s : HistStore) (now : Int) : HistStore :=
  let kept := keptOf cfg s now
  let topIds := ((sortDesc kept).take cfg.maxItems).map HistoryEntry.id
  { s with entries := kept.filter (fun e => e.id ∈ topIds) }

/-- `HistoryManager.add`: insert a row with the next id and the current
timestamp, then run `cleanup()`; returns the new id. -/
def addH (cfg : HistConfig) (s : HistStore) (now : Int) (text : String) (dur : Int)
    (lang : Option String) : Nat × HistStore :=
  let e : HistoryEntry :=
    { id := s.nextId, text := text, duration := dur, language := lang, createdAt := now }
  let s1 : HistStore := { entries := s.entries ++ [e], nextId := s.nextId + 1 }
  (e.id, cleanupH cfg s1 now)

/-- `HistoryManager.clear`: `DELETE FROM history` — rows go, the
AUTOINCREMENT sequence stays. -/
def clearH (s : HistStore) : HistStore :=
  { s with entries := [] }

/-- `HistoryManager.delete`: remove the row with the given id, if any. -/
def deleteH (s : HistStore) (i : Nat) : HistStore :=
  { s with entries := s.entries.filter (fun e => e.id ≠ i) }

/-- `HistoryManager.count`. -/
def countH (s : HistStore) : Nat :=
  s.entries.length

/-- `HistoryManager.get_recent`: most recent first, at most `limit` rows. -/
def getRecent (s : HistStore) (limit : Nat) : List HistoryEntry :=
  (sortDesc s.entries).take limit

/-- One mutating operation of the manager, for trace statements. -/
inductive HOp where
  | add (now : Int) (text : String) (dur : Int) (lang : Option String)
  | del (i : Nat)
  | clear
  | cleanup (now : Int)

/-- Apply one operation; the second component lists the ids the operation
issued (one per `add`). -/
def applyH (cfg : HistConfig) (s : HistStore) : HOp → HistStore × List Nat
  | .add now text dur lang => ((addH cfg s now text dur lang).2, [(addH cfg s now text dur lang).1])
  | .del i => (deleteH s i, [])
  | .clear => (clearH s, [])
  | .cleanup now => (cleanupH cfg s now, [])

/-- Apply a whole operation sequence, collecting every issued id in order. -/
def runH (cfg : HistConfig) (s : HistStore) : List HOp → HistStore × List Nat
  | [] => (s, [])
  | op :: ops =>
    ((runH cfg (applyH cfg s op).1 ops).1,
      (applyH cfg s op).2 ++ (runH cfg (applyH cfg s op).1 ops).2)

/-! ### SQL LIKE (the `text LIKE '%' || query || '%'` match of `search`)

SQLite's default LIKE: `%` matches any sequence, `_` any single character,
and ordinary characters compare case-insensitively over the ASCII range.
The matcher carries explicit fuel (always at least `pattern length + text
length + 1`) so that it is structurally recursive and evaluates by
`decide`. -/

/-- ASCII case folding on code points: upper-case letters shift to their
lower-case code, everything else is untouched. -/
def foldCaseNat (c : Char) : Nat :=
  if 65 ≤ c.toNat ∧ c.toNat ≤ 90 then c.toNat + 32 else c.toNat

/-- Character comparison of SQLite LIKE: equal up to ASCII case. -/
def charLikeEq (a c : Char) : Bool :=
  foldCaseNat a = foldCaseNat c

/-- Fueled LIKE matcher over character lists. -/
def likeFuel : Nat → List Char → List Char → Bool
  | 0, _, _ => false
  | _ + 1, [], s => s.isEmpty
  | f + 1, p0 :: p, s =>
    if p0 = '%' then
      likeFuel f p s ||
        (match s with
          | [] => false
          | _ :: s' => likeFuel f (p0 :: p) s')
    else
      match s with
      | [] => false
      | c :: s' =>
        if p0 = '_' then likeFuel f p s'
        else charLikeEq p0 c && likeFuel f p s'

/-- SQLite LIKE over character lists. -/
def likeMatch (p s : List Char) : Bool :=
  likeFuel (p.length + s.length + 1) p s

/-- The pattern `search` builds: `f'%{query}%'` — the query is interpolated
with no escaping, so `%` and `_` inside it keep their wildcard meaning. -/
def likePattern (q : String) : List Char :=
  '%' :: (q.data ++ ['%'])

/-- `HistoryManager.search`: rows whose text matches `%query%`, most recent
first, at most `limit` of them. -/
def searchH (s : HistStore) (q : String) (limit : Nat) : List HistoryEntry :=
  (sortDesc (s.entries.filter (fun e => likeMatch (likePattern q) e.text.data))).take limit

/-- `search` as a store operation: a `SELECT` leaves the store as it was. -/
def searchOp (s : HistStore) (q : String) (limit : Nat) : HistStore × List HistoryEntry :=
  (s, searchH s q limit)

/-! ## Orchestrator (main.py) -/

/-- The coarse application states of the spec. -/
inductive AppState where
  | ready
  | recording
  | transcribing
deriving DecidableEq

/-- `WhisperApp`'s orchestration state: the menu-bar title, the status menu
item, overlay visibility, the `_is_transcribing` guard and the recorder. -/
structure OrchState where
  title : String
  status : String
  overlayVisible : Bool
  isTranscribing : Bool
  recorder : RecState
deriving DecidableEq

/-- The spec's AppState read off the orchestrator: Transcribing while the
worker guard is set, Recording while the recorder runs, Ready otherwise
(the Error display lives in the status text). -/
def appState (o : OrchState) : AppState :=
  if o.isTranscribing then .transcribing
  else if o.recorder.isRecording then .recording
  else .ready

/-- The calls the orchestrator makes on its collaborators, in order. -/
inductive Act where
  | audioStart
  | audioStop
  | showOverlay
  | hideOverlay
  | spawn (clip : List ℚ)
  | insertTxt (t : String)
  | historyAdd (t : String)
deriving DecidableEq

/-- `WhisperApp._on_recording_start`: dropped while transcribing; otherwise
set the red title, the Recording status, show the overlay and start the
recorder. -/
def onRecordingStart (o : OrchState) : OrchState × List Act :=
  if o.isTranscribing then (o, [])
  else
    ({ o with
        title := "🔴"
        status := "Recording..."
        overlayVisible := true
        recorder := recorderStart o.recorder },
      [Act.showOverlay, Act.audioStart])

/-- `WhisperApp._on_recording_stop`: dropped while transcribing; otherwise
set the hourglass title and Transcribing status, hide the overlay, stop the
recorder, and either report "no audio" or hand the clip to a worker. -/
def onRecordingStop (o : OrchState) : OrchState × List Act :=
  if o.isTranscribing then (o, [])
  else
    let o1 := { o with title := "⏳", status := "Transcribing...", overlayVisible := false }
    let r := recorderStop o1.recorder
    let o2 := { o1 with recorder := r.2 }
    match r.1 with
    | none => ({ o2 with title := "🎤", status := "Ready (no audio)" }, [Act.hideOverlay, Act.audioStop])
    | some clip => (o2, [Act.hideOverlay, Act.audioStop, Act.spawn clip])

/-- Python's `str(e)[:30]`, slicing by characters. -/
def takeChars30 (msg : String) : String :=
  String.mk (msg.data.take 30)

/-- `WhisperApp._transcribe_and_insert`. The engine result is an
`Except` (a raised transcription error or the text); `insErr` and `histErr`
stand for an exception raised by `TextInserter.insert` respectively
`HistoryManager.add` — any of the three lands in the `except` branch, which
writes the truncated error status; the `finally` branch always clears the
guard and restores the microphone title. The action list records the
collaborator calls that were made. -/
def transcribeAndInsert (o : OrchState) (engine : Except String String)
    (insErr : Option String) (histErr : Option String) : OrchState × List Act :=
  let o1 := { o with isTranscribing := true }
  let r : OrchState × List Act :=
    match engine with
    | .error e => ({ o1 with status := "Error: " ++ takeChars30 e }, [])
    | .ok text =>
      if text = "" then ({ o1 with status := "No speech detected" }, [])
      else
        match insErr with
        | some m => ({ o1 with status := "Error: " ++ takeChars30 m }, [Act.insertTxt text])
        | none =>
          match histErr with
          | some m =>
            ({ o1 with status := "Error: " ++ takeChars30 m },
              [Act.insertTxt text, Act.historyAdd text])
          | none =>
            ({ o1 with status := "Ready" }, [Act.insertTxt text, Act.historyAdd text])
  ({ r.1 with isTranscribing := false, title := "🎤" }, r.2)

/-! ## Concrete inputs for witnesses and counterexamples -/

/-- A recorder at rest. -/
def recIdle : RecState :=
  { sampleRate := 16000
    channels := 1
    audioData := []
    isRecording := false
    hasAmpCallback := true }

/-- A recorder mid-session with three buffered samples at sample rate 4
(so the clip passes the half-second minimum). -/
def recBusy : RecState :=
  { sampleRate := 4
    channels := 1
    audioData := [[1, 1], [1]]
    isRecording := true
    hasAmpCallback := true }

/-- The orchestrator in its Ready state. -/
def orchReady : OrchState :=
  { title := "🎤"
    status := "Ready"
    overlayVisible := false
    isTranscribing := false
    recorder := recIdle }

/-- The orchestrator while a worker is transcribing. -/
def orchBusy : OrchState :=
  { title := "⏳"
    status := "Transcribing..."
    overlayVisible := false
    isTranscribing := true
    recorder := recIdle }

/-! ## Theorems: hotkey listener -/

@[simp] theorem trackPress_isRecording (s : HKState) (k : RawKey) :
    (trackPress s k).isRecording = s.isRecording := by
  cases k <;> rfl

@[simp] theorem trackPress_hotkeyActive (s : HKState) (k : RawKey) :
    (trackPress s k).hotkeyActive = s.hotkeyActive := by
  cases k <;> rfl

@[simp] theorem trackRelease_isRecording (s : HKState) (k : RawKey) :
    (trackRelease s k).isRecording = s.isRecording := by
  cases k <;> rfl

@[simp] theorem trackRelease_hotkeyActive (s : HKState) (k : RawKey) :
    (trackRelease s k).hotkeyActive = s.hotkeyActive := by
  cases k <;> rfl

theorem isTriggerKey_modK (cfg : HKConfig) (m : MKey) (sd : Side) :
    isTriggerKey cfg (RawKey.modK m sd) = false := by
  unfold isTriggerKey
  cases cfg.trigger with
  | none => rfl
  | some t => cases t <;> rfl

/-- Modifier key events never emit an edge in any mode. -/
theorem modifier_no_emit (cfg : HKConfig) (s : HKState) (m : MKey) (sd : Side) :
    (hkStep cfg s (KEvent.press (RawKey.modK m sd))).2 = [] ∧
    (hkStep cfg s (KEvent.release (RawKey.modK m sd))).2 = [] := by
  constructor <;> simp [hkStep, onPress, onRelease, isTriggerKey_modK]

/-- In hold mode, from a state where the active flag and the recording flag
agree, one step either emits nothing and preserves the active flag, or emits
exactly the edge matching the flag and flips it; the flags stay in
agreement, and emissions coincide with the code-detected edges. -/
theorem hold_step (cfg : HKConfig) (hm : cfg.mode = Mode.hold) (s : HKState)
    (hs : s.hotkeyActive = s.isRecording) (e : KEvent) :
    ((hkStep cfg s e).1.hotkeyActive = (hkStep cfg s e).1.isRecording) ∧
    (((hkStep cfg s e).2 = [] ∧ (hkStep cfg s e).1.hotkeyActive = s.hotkeyActive ∧
        risingAtPress cfg s e = false ∧ fallingAtRelease cfg s e = false) ∨
      ((hkStep cfg s e).2 = [Edge.activate] ∧ s.hotkeyActive = false ∧
        (hkStep cfg s e).1.hotkeyActive = true ∧
        risingAtPress cfg s e = true ∧ fallingAtRelease cfg s e = false) ∨
      ((hkStep cfg s e).2 = [Edge.deactivate] ∧ s.hotkeyActive = true ∧
        (hkStep cfg s e).1.hotkeyActive = false ∧
        risingAtPress cfg s e = false ∧ fallingAtRelease cfg s e = true)) := by
  cases e with
  | press k =>
    cases htrig : isTriggerKey cfg k <;>
      cases hchk : checkMods cfg (trackPress s k) <;>
      cases hact : s.hotkeyActive <;>
      simp_all [hkStep, onPress, risingAtPress, fallingAtRelease, hm]
  | release k =>
    cases htrig : isTriggerKey cfg k <;>
      cases hact : s.hotkeyActive <;>
      simp_all [hkStep, onRelease, risingAtPress, fallingAtRelease, hm]

theorem hkRun_cons_snd (cfg : HKConfig) (s : HKState) (e : KEvent) (es : List KEvent) :
    (hkRun cfg s (e :: es)).2 = (hkStep cfg s e).2 ++ (hkRun cfg (hkStep cfg s e).1 es).2 :=
  rfl

theorem countRising_cons (cfg : HKConfig) (s : HKState) (e : KEvent) (es : List KEvent) :
    countRising cfg s (e :: es) =
      (if risingAtPress cfg s e then 1 else 0) + countRising cfg (hkStep cfg s e).1 es :=
  rfl

theorem countFalling_cons (cfg : HKConfig) (s : HKState) (e : KEvent) (es : List KEvent) :
    countFalling cfg s (e :: es) =
      (if fallingAtRelease cfg s e then 1 else 0) + countFalling cfg (hkStep cfg s e).1 es :=
  rfl

@[simp] theorem altFrom_false_succ (n : Nat) :
    altFrom false (n + 1) = Edge.activate :: altFrom true n := by
  simp [altFrom]

@[simp] theorem altFrom_true_succ (n : Nat) :
    altFrom true (n + 1) = Edge.deactivate :: altFrom false n := by
  simp [altFrom]

/-- In hold mode the emitted edges strictly alternate starting from the
current activity bit, and the activate/deactivate tallies equal the
code-detected rising/falling edge counts. -/
theorem hold_run (cfg : HKConfig) (hm : cfg.mode = Mode.hold) :
    ∀ (evs : List KEvent) (s : HKState), s.hotkeyActive = s.isRecording →
      (hkRun cfg s evs).2 = altFrom s.hotkeyActive (hkRun cfg s evs).2.length ∧
      (hkRun cfg s evs).2.count Edge.activate = countRising cfg s evs ∧
      (hkRun cfg s evs).2.count Edge.deactivate = countFalling cfg s evs := by
  intro evs
  induction evs with
  | nil =>
    intro s _
    simp [hkRun, countRising, countFalling, altFrom]
  | cons e es ih =>
    intro s hs
    obtain ⟨hinv, hcase⟩ := hold_step cfg hm s hs e
    obtain ⟨ha, hca, hcd⟩ := ih (hkStep cfg s e).1 hinv
    rcases hcase with ⟨h0, hA, hrise, hfall⟩ | ⟨h0, hA0, hA1, hrise, hfall⟩ |
      ⟨h0, hA0, hA1, hrise, hfall⟩
    · rw [hA] at ha
      refine ⟨?_, ?_, ?_⟩
      · simpa [hkRun_cons_snd, h0] using ha
      · simp [hkRun_cons_snd, h0, countRising_cons, hrise, hca]
      · simp [hkRun_cons_snd, h0, countFalling_cons, hfall, hcd]
    · rw [hA1] at ha
      refine ⟨?_, ?_, ?_⟩
      · rw [hkRun_cons_snd, h0, List.singleton_append, hA0, List.length_cons,
          altFrom_false_succ, ← ha]
      · simp [hkRun_cons_snd, h0, countRising_cons, hrise, List.count_cons, hca]
        omega
      · simp [hkRun_cons_snd, h0, countFalling_cons, hfall, List.count_cons, hcd]
    · rw [hA1] at ha
      refine ⟨?_, ?_, ?_⟩
      · rw [hkRun_cons_snd, h0, List.singleton_append, hA0, List.length_cons,
          altFrom_true_succ, ← ha]
      · simp [hkRun_cons_snd, h0, countRising_cons, hrise, List.count_cons, hca]
      · simp [hkRun_cons_snd, h0, countFalling_cons, hfall, List.count_cons, hcd]
        omega

/-- Claim C1, amended: in hold mode the listener's edges strictly alternate
Activate, Deactivate, Activate, ...; the number of Activate edges equals the
number of rising edges the code detects (a trigger-key press with all
modifiers down while not already active) and the number of Deactivate edges
equals the number of code-detected falling edges (a trigger-key release
while active); modifier-only events never emit, so a rising edge completed
by a modifier press or a falling edge caused by a modifier release goes
undetected. -/
theorem c1_hold_alternation (mods : List MKey) (trig : Option Trig) (evs : List KEvent) :
    (hkRun ⟨mods, trig, Mode.hold⟩ HKState.init evs).2 =
      altEdges (hkRun ⟨mods, trig, Mode.hold⟩ HKState.init evs).2.length ∧
    (hkRun ⟨mods, trig, Mode.hold⟩ HKState.init evs).2.count Edge.activate =
      countRising ⟨mods, trig, Mode.hold⟩ HKState.init evs ∧
    (hkRun ⟨mods, trig, Mode.hold⟩ HKState.init evs).2.count Edge.deactivate =
      countFalling ⟨mods, trig, Mode.hold⟩ HKState.init evs ∧
    (∀ (s : HKState) (m : MKey) (sd : Side),
      (hkStep ⟨mods, trig, Mode.hold⟩ s (KEvent.press (RawKey.modK m sd))).2 = [] ∧
      (hkStep ⟨mods, trig, Mode.hold⟩ s (KEvent.release (RawKey.modK m sd))).2 = []) := by
  obtain ⟨ha, hca, hcd⟩ := hold_run ⟨mods, trig, Mode.hold⟩ rfl evs HKState.init rfl
  exact ⟨ha, hca, hcd, fun s m sd => modifier_no_emit _ s m sd⟩

/-- Claim C1 as frozen fails on the code: with the default cmd+shift+space
hold combo, pressing space first and completing the combo with the two
modifiers afterwards is a rising edge of combo satisfaction (all modifiers
pressed and trigger down), yet the listener emits no Activate, because
satisfaction is only consulted on trigger-key events. -/
theorem c1_counterexample :
    ¬ ((hkRun cfgHoldCS HKState.init evsModLast).2.count Edge.activate =
          ghostRising cfgHoldCS Ghost.init evsModLast ∧
        (hkRun cfgHoldCS HKState.init evsModLast).2.count Edge.deactivate =
          ghostFalling cfgHoldCS Ghost.init evsModLast) := by
  decide

/-- In toggle mode a release event never emits. -/
theorem toggle_release_no_emit (cfg : HKConfig) (hm : cfg.mode = Mode.toggle)
    (s : HKState) (k : RawKey) : (onRelease cfg s k).2 = [] := by
  cases htrig : isTriggerKey cfg k <;>
    cases hact : s.hotkeyActive <;>
    simp_all [onRelease, hm]

/-- In toggle mode, one step either emits nothing and preserves the
recording flag, or detects a rising edge and emits exactly the edge matching
the flag while flipping it. -/
theorem toggle_step (cfg : HKConfig) (hm : cfg.mode = Mode.toggle) (s : HKState) (e : KEvent) :
    ((hkStep cfg s e).2 = [] ∧ (hkStep cfg s e).1.isRecording = s.isRecording ∧
        risingAtPress cfg s e = false) ∨
      ((hkStep cfg s e).2 = [Edge.activate] ∧ s.isRecording = false ∧
        (hkStep cfg s e).1.isRecording = true ∧ risingAtPress cfg s e = true) ∨
      ((hkStep cfg s e).2 = [Edge.deactivate] ∧ s.isRecording = true ∧
        (hkStep cfg s e).1.isRecording = false ∧ risingAtPress cfg s e = true) := by
  cases e with
  | press k =>
    cases htrig : isTriggerKey cfg k <;>
      cases hchk : checkMods cfg (trackPress s k) <;>
      cases hact : s.hotkeyActive <;>
      cases hrec : s.isRecording <;>
      simp_all [hkStep, onPress, risingAtPress, hm]
  | release k =>
    cases htrig : isTriggerKey cfg k <;>
      cases hact : s.hotkeyActive <;>
      simp_all [hkStep, onRelease, risingAtPress, hm]

/-- In toggle mode the emitted edges are the strict alternation determined
by the current recording flag, one edge per code-detected rising edge. -/
theorem toggle_run (cfg : HKConfig) (hm : cfg.mode = Mode.toggle) :
    ∀ (evs : List KEvent) (s : HKState),
      (hkRun cfg s evs).2 = altFrom s.isRecording (countRising cfg s evs) := by
  intro evs
  induction evs with
  | nil =>
    intro s
    simp [hkRun, countRising, altFrom]
  | cons e es ih =>
    intro s
    have hrest := ih (hkStep cfg s e).1
    rcases toggle_step cfg hm s e with ⟨h0, hR, hrise⟩ | ⟨h0, hR0, hR1, hrise⟩ |
      ⟨h0, hR0, hR1, hrise⟩
    · rw [hR] at hrest
      simp [hkRun_cons_snd, h0, countRising_cons, hrise, hrest]
    · rw [hR1] at hrest
      simp [hkRun_cons_snd, h0, countRising_cons, hrise, hR0, altFrom, Nat.one_add, hrest]
    · rw [hR1] at hrest
      simp [hkRun_cons_snd, h0, countRising_cons, hrise, hR0, altFrom, Nat.one_add, hrest]

theorem altFrom_length (b : Bool) (n : Nat) : (altFrom b n).length = n := by
  induction n generalizing b with
  | zero => rfl
  | succ n ih => simp [altFrom, ih]

theorem altFrom_count_activate (n : Nat) (b : Bool) :
    (altFrom b n).count Edge.activate = if b then n / 2 else (n + 1) / 2 := by
  induction n generalizing b with
  | zero => simp [altFrom]
  | succ n ih => cases b <;> simp [altFrom, List.count_cons, ih] <;> omega

theorem altFrom_count_deactivate (n : Nat) (b : Bool) :
    (altFrom b n).count Edge.deactivate = if b then (n + 1) / 2 else n / 2 := by
  induction n generalizing b with
  | zero => simp [altFrom]
  | succ n ih => cases b <;> simp [altFrom, List.count_cons, ih] <;> omega

/-- Claim C7, amended: in toggle mode, for a sequence containing N
code-detected rising edges (a trigger-key press completing the combo while
not already active), the listener emits the strictly alternating sequence
Activate, Deactivate, ... of length N — so ⌈N/2⌉ Activate edges and ⌊N/2⌋
Deactivate edges — and release events never emit; a rising edge completed
by a modifier press is not detected and emits nothing. -/
theorem c7_toggle_alternation (mods : List MKey) (trig : Option Trig) (evs : List KEvent) :
    (hkRun ⟨mods, trig, Mode.toggle⟩ HKState.init evs).2 =
      altEdges (countRising ⟨mods, trig, Mode.toggle⟩ HKState.init evs) ∧
    (hkRun ⟨mods, trig, Mode.toggle⟩ HKState.init evs).2.count Edge.activate =
      (countRising ⟨mods, trig, Mode.toggle⟩ HKState.init evs + 1) / 2 ∧
    (hkRun ⟨mods, trig, Mode.toggle⟩ HKState.init evs).2.count Edge.deactivate =
      countRising ⟨mods, trig, Mode.toggle⟩ HKState.init evs / 2 ∧
    (∀ (s : HKState) (k : RawKey),
      (hkStep ⟨mods, trig, Mode.toggle⟩ s (KEvent.release k)).2 = []) := by
  have h := toggle_run ⟨mods, trig, Mode.toggle⟩ rfl evs HKState.init
  refine ⟨h, ?_, ?_, fun s k => toggle_release_no_emit _ rfl s k⟩
  · rw [h]
    simp [altFrom_count_activate, HKState.init]
  · rw [h]
    simp [altFrom_count_deactivate, HKState.init]

/-- Claim C7 as frozen fails on the code: with the default cmd+shift+space
toggle combo, completing the combo by pressing the modifiers after the
trigger key is a rising edge of combo satisfaction, yet the listener emits
nothing — not the single Activate the strict alternation over N = 1 rising
edges requires. -/
theorem c7_counterexample :
    ¬ ((hkRun cfgToggleCS HKState.init evsModLast).2 =
        altEdges (ghostRising cfgToggleCS Ghost.init evsModLast)) := by
  decide

/-! ## Theorems: audio recorder -/

/-- Claim C3: `stop()` yields no clip exactly when the recorder was not
started or the buffered audio is shorter than half the sample rate (500 ms,
i.e. fewer than `sample_rate * 0.5` samples); otherwise the clip is exactly
the concatenated buffer — its duration equals the buffered duration — and
the session is cleared (buffer emptied, recording flag down). -/
theorem c3_stop_contract (s : RecState) (hsr : 0 < s.sampleRate) :
    ((recorderStop s).1 = none ↔
      (s.isRecording = false ∨ 2 * s.audioData.flatten.length < s.sampleRate)) ∧
    (∀ clip, (recorderStop s).1 = some clip →
      clip = s.audioData.flatten ∧
      (recorderStop s).2.audioData = [] ∧
      (recorderStop s).2.isRecording = false ∧
      clipDuration clip s.sampleRate = recorderDuration s) := by
  have hfl : s.audioData.flatten.length = (s.audioData.map List.length).sum :=
    List.length_flatten _
  cases hrec : s.isRecording with
  | false =>
    constructor
    · simp [recorderStop, hrec]
    · intro clip hc
      simp [recorderStop, hrec] at hc
  | true =>
    by_cases hdata : s.audioData = []
    · constructor
      · simp [recorderStop, hrec, hdata]
        omega
      · intro clip hc
        simp [recorderStop, hrec, hdata] at hc
    · by_cases hlen : 2 * (s.audioData.map List.length).sum < s.sampleRate
      · constructor
        · simp [recorderStop, hrec, hdata, hfl, hlen]
        · intro clip hc
          simp [recorderStop, hrec, hdata, hlen] at hc
      · constructor
        · simp [recorderStop, hrec, hdata, hfl, hlen]
        · intro clip hc
          have hclip : clip = s.audioData.flatten := by
            simp [recorderStop, hrec, hdata, hlen] at hc
            exact hc.symm
          subst hclip
          refine ⟨rfl, ?_, ?_, ?_⟩
          · simp [recorderStop, hrec, hdata, hlen]
          · simp [recorderStop, hrec, hdata, hlen]
          · simp [clipDuration, recorderDuration, hdata, hfl]

/-- Witness for C3 at a concrete mid-session recorder. -/
theorem c3_stop_contract_witness :
    (recorderStop recBusy).1 = none ↔
      (recBusy.isRecording = false ∨ 2 * recBusy.audioData.flatten.length < recBusy.sampleRate) :=
  (c3_stop_contract recBusy (by decide)).1

/-! ## Theorems: orchestrator -/

theorem appState_transcribing_iff (o : OrchState) :
    appState o = AppState.transcribing ↔ o.isTranscribing = true := by
  unfold appState
  cases ht : o.isTranscribing <;> cases hr : o.recorder.isRecording <;> simp

theorem appState_ready_iff (o : OrchState) :
    appState o = AppState.ready ↔ o.isTranscribing = false ∧ o.recorder.isRecording = false := by
  unfold appState
  cases ht : o.isTranscribing <;> cases hr : o.recorder.isRecording <;> simp

/-- Claim C4: an Activate edge arriving while AppState is Transcribing is
dropped whole — the handler changes nothing and calls no collaborator, in
particular not `AudioCapture.start()`. -/
theorem c4_activate_dropped (o : OrchState) (h : appState o = AppState.transcribing) :
    onRecordingStart o = (o, []) := by
  have ht := (appState_transcribing_iff o).1 h
  simp [onRecordingStart, ht]

/-- Witness for C4 at the concrete transcribing orchestrator state. -/
theorem c4_activate_dropped_witness : onRecordingStart orchBusy = (orchBusy, []) :=
  c4_activate_dropped orchBusy (by decide)

/-- Claim C5 as frozen fails on the code: a Deactivate edge arriving in the
Ready state (not Recording) is not ignored — the handler calls
`AudioCapture.stop()` and rewrites the status line. -/
theorem c5_counterexample :
    appState orchReady ≠ AppState.recording ∧
    Act.audioStop ∈ (onRecordingStop orchReady).2 ∧
    (onRecordingStop orchReady).1.status ≠ orchReady.status := by
  decide

/-- Claim C5, amended: a Deactivate edge is ignored only while AppState is
Transcribing (no state change, no calls). Arriving in Ready, the handler
still runs: it calls `AudioCapture.stop()`, which yields no clip and leaves
the recorder untouched, and the orchestrator lands back in Ready with the
"no audio" status. -/
theorem c5_deactivate_guard (o : OrchState) :
    (appState o = AppState.transcribing → onRecordingStop o = (o, [])) ∧
    (appState o = AppState.ready →
      Act.audioStop ∈ (onRecordingStop o).2 ∧
      (onRecordingStop o).1.recorder = o.recorder ∧
      (onRecordingStop o).1.status = "Ready (no audio)" ∧
      appState (onRecordingStop o).1 = AppState.ready) := by
  constructor
  · intro h
    have ht := (appState_transcribing_iff o).1 h
    simp [onRecordingStop, ht]
  · intro h
    obtain ⟨ht, hr⟩ := (appState_ready_iff o).1 h
    simp [onRecordingStop, ht, recorderStop, hr, appState]

/-- Helper: Python's 30-character slice is at most 30 characters long. -/
theorem takeChars30_length_le (msg : String) : (takeChars30 msg).length ≤ 30 := by
  simp only [takeChars30, String.length]
  exact le_trans (List.length_take_le 30 msg.data) (le_refl 30)

/-- Claim C6: whatever the worker outcome — text, empty text, or a failure
raised by the engine, the injector or the history store — the worker run
ends with the transcribing guard cleared and AppState back at Ready (given
the recorder is stopped, as it is on this path); an engine failure is
surfaced as the truncated `Error:` status (at most 37 characters) and still
ends at Ready; a successful non-empty transcription inserts the text, adds
it to history and sets the Ready status. -/
theorem c6_worker_always_ready (o : OrchState) (engine : Except String String)
    (insErr histErr : Option String) (hr : o.recorder.isRecording = false) :
    (transcribeAndInsert o engine insErr histErr).1.isTranscribing = false ∧
    appState (transcribeAndInsert o engine insErr histErr).1 = AppState.ready ∧
    (transcribeAndInsert o engine insErr histErr).1.title = "🎤" ∧
    (∀ msg, engine = Except.error msg →
      (transcribeAndInsert o engine insErr histErr).1.status = "Error: " ++ takeChars30 msg ∧
      (transcribeAndInsert o engine insErr histErr).1.status.length ≤ 37) ∧
    (engine = Except.ok "" →
      (transcribeAndInsert o engine insErr histErr).1.status = "No speech detected") ∧
    (∀ t, engine = Except.ok t → t ≠ "" → insErr = none → histErr = none →
      (transcribeAndInsert o engine insErr histErr).1.status = "Ready" ∧
      Act.insertTxt t ∈ (transcribeAndInsert o engine insErr histErr).2 ∧
      Act.historyAdd t ∈ (transcribeAndInsert o engine insErr histErr).2) := by
  have hlen : ∀ msg : String, ("Error: " ++ takeChars30 msg).length ≤ 37 := by
    intro msg
    have h30 := takeChars30_length_le msg
    have h7 : ("Error: " : String).length = 7 := rfl
    simp [String.length_append, h7]
    omega
  rcases engine with e | text
  · refine ⟨by simp [transcribeAndInsert], ?_, by simp [transcribeAndInsert], ?_, by simp, ?_⟩
    · simp [transcribeAndInsert, appState, hr]
    · intro msg hmsg
      have he : e = msg := by injection hmsg
      subst he
      exact ⟨by simp [transcribeAndInsert], by simpa [transcribeAndInsert] using hlen e⟩
    · intro t ht
      simp at ht
  · by_cases htext : text = ""
    · subst htext
      refine ⟨by simp [transcribeAndInsert], ?_, by simp [transcribeAndInsert], ?_, ?_, ?_⟩
      · simp [transcribeAndInsert, appState, hr]
      · intro msg hmsg
        simp at hmsg
      · intro
        simp [transcribeAndInsert]
      · intro t ht hne
        injection ht with ht
        subst ht
        simp at hne
    · rcases insErr with _ | m
      · rcases histErr with _ | m
        · refine ⟨by simp [transcribeAndInsert, htext], ?_, by simp [transcribeAndInsert, htext], ?_, ?_, ?_⟩
          · simp [transcribeAndInsert, appState, hr, htext]
          · intro msg hmsg
            simp at hmsg
          · intro hok
            injection hok with hok
            exact absurd hok htext
          · intro t ht _ _ _
            injection ht with ht
            subst ht
            refine ⟨by simp [transcribeAndInsert, htext], ?_, ?_⟩ <;>
              simp [transcribeAndInsert, htext]
        · refine ⟨by simp [transcribeAndInsert, htext], ?_, by simp [transcribeAndInsert, htext], ?_, ?_, ?_⟩
          · simp [transcribeAndInsert, appState, hr, htext]
          · intro msg hmsg
            simp at hmsg
          · intro hok
            injection hok with hok
            exact absurd hok htext
          · intro t _ _ _ hnone
            simp at hnone
      · refine ⟨by simp [transcribeAndInsert, htext], ?_, by simp [transcribeAndInsert, htext], ?_, ?_, ?_⟩
        · simp [transcribeAndInsert, appState, hr, htext]
        · intro msg hmsg
          simp at hmsg
        · intro hok
          injection hok with hok
          exact absurd hok htext
        · intro t _ _ hnone
          simp at hnone

/-- Witness for C6 at a concrete engine failure in the Ready state. -/
theorem c6_worker_always_ready_witness :
    (transcribeAndInsert orchReady (Except.error "boom") none none).1.isTranscribing = false :=
  (c6_worker_always_ready orchReady (Except.error "boom") none none (by decide)).1

/-- Claim C9: while armed and with an amplitude callback configured, every
chunk produces exactly one callback value `min(1.0, 10 * RMS(chunk))` —
a value in [0, 1] since the RMS is a nonnegative square root — and the
chunk is buffered; while not armed the callback never fires and the state
is untouched. -/
theorem c9_amplitude (s : RecState) (chunk : List ℚ) (rms : ℚ)
    (hnn : 0 ≤ rms) (hsq : rms * rms = meanSq chunk) :
    (s.isRecording = true → s.hasAmpCallback = true →
      (audioCallback s chunk rms).2 = some (min 1 (rms * 10)) ∧
      0 ≤ min 1 (rms * 10) ∧ min 1 (rms * 10) ≤ 1 ∧
      (audioCallback s chunk rms).1.audioData = s.audioData ++ [chunk]) ∧
    (s.isRecording = false →
      (audioCallback s chunk rms).2 = none ∧ (audioCallback s chunk rms).1 = s) := by
  constructor
  · intro hrec hcb
    refine ⟨by simp [audioCallback, hrec, hcb], ?_, min_le_left _ _,
      by simp [audioCallback, hrec, hcb]⟩
    have h10 : (0 : ℚ) ≤ rms * 10 := mul_nonneg hnn (by norm_num)
    exact le_min (by norm_num) h10
  · intro hrec
    constructor <;> simp [audioCallback, hrec]

/-- Witness for C9 at a concrete armed recorder and the constant-1 chunk,
whose RMS is exactly 1. -/
theorem c9_amplitude_witness :
    (audioCallback recBusy [1, 1] 1).2 = some (min 1 ((1 : ℚ) * 10)) :=
  ((c9_amplitude recBusy [1, 1] 1 (by norm_num) (by norm_num [meanSq])).1 rfl rfl).1

/-! ## Theorems: history manager -/

theorem cleanupH_entries (cfg : HistConfig) (s : HistStore) (now : Int) :
    (cleanupH cfg s now).entries =
      (keptOf cfg s now).filter
        (fun e =>
          e.id ∈ ((sortDesc (keptOf cfg s now)).take cfg.maxItems).map HistoryEntry.id) :=
  rfl

theorem keptOf_mem_cutoff (cfg : HistConfig) (s : HistStore) (now : Int) (e : HistoryEntry)
    (he : e ∈ keptOf cfg s now) : now - cfg.retentionWindow ≤ e.createdAt := by
  have h := (List.mem_filter.1 he).2
  simp only [Bool.not_eq_true', decide_eq_false_iff_not, not_lt] at h
  exact h

/-- The surviving rows of `cleanup()` are exactly the `max_items` newest
rows (by created_at, ties by id) among those inside the retention window. -/
theorem cleanupH_perm (cfg : HistConfig) (s : HistStore) (now : Int)
    (h : (s.entries.map HistoryEntry.id).Nodup) :
    (cleanupH cfg s now).entries.Perm ((sortDesc (keptOf cfg s now)).take cfg.maxItems) := by
  have hsubl : (keptOf cfg s now).Sublist s.entries := List.filter_sublist _
  have hkeptIds : ((keptOf cfg s now).map HistoryEntry.id).Nodup :=
    (hsubl.map HistoryEntry.id).nodup h
  have hkeptN : (keptOf cfg s now).Nodup := List.Nodup.of_map _ hkeptIds
  have hperm : (sortDesc (keptOf cfg s now)).Perm (keptOf cfg s now) :=
    List.perm_insertionSort _ _
  have hsortN : (sortDesc (keptOf cfg s now)).Nodup := hperm.nodup_iff.2 hkeptN
  have htake : ((sortDesc (keptOf cfg s now)).take cfg.maxItems).Sublist
      (sortDesc (keptOf cfg s now)) := List.take_sublist _ _
  have htakeN : ((sortDesc (keptOf cfg s now)).take cfg.maxItems).Nodup :=
    htake.nodup hsortN
  have hresN : (cleanupH cfg s now).entries.Nodup := by
    rw [cleanupH_entries]
    exact (List.filter_sublist _).nodup hkeptN
  rw [List.perm_ext_iff_of_nodup hresN htakeN]
  intro a
  rw [cleanupH_entries, List.mem_filter]
  constructor
  · rintro ⟨haKept, haId⟩
    simp only [decide_eq_true_eq, List.mem_map] at haId
    obtain ⟨b, hbTake, hbId⟩ := haId
    have hbKept : b ∈ keptOf cfg s now := hperm.mem_iff.1 (htake.subset hbTake)
    have hab : a = b :=
      List.inj_on_of_nodup_map hkeptIds haKept hbKept hbId.symm
    rw [hab]
    exact hbTake
  · intro haTake
    have haKept : a ∈ keptOf cfg s now := hperm.mem_iff.1 (htake.subset haTake)
    refine ⟨haKept, ?_⟩
    simp only [decide_eq_true_eq, List.mem_map]
    exact ⟨a, haTake, rfl⟩

theorem cleanupH_length (cfg : HistConfig) (s : HistStore) (now : Int)
    (h : (s.entries.map HistoryEntry.id).Nodup) :
    (cleanupH cfg s now).entries.length = min cfg.maxItems (keptOf cfg s now).length := by
  have hperm : (sortDesc (keptOf cfg s now)).Perm (keptOf cfg s now) :=
    List.perm_insertionSort _ _
  rw [(cleanupH_perm cfg s now h).length_eq, List.length_take, hperm.length_eq]

theorem cleanupH_cutoff (cfg : HistConfig) (s : HistStore) (now : Int) (e : HistoryEntry)
    (he : e ∈ (cleanupH cfg s now).entries) : now - cfg.retentionWindow ≤ e.createdAt := by
  rw [cleanupH_entries, List.mem_filter] at he
  exact keptOf_mem_cutoff cfg s now e he.1

/-- Appending the fresh row preserves distinctness of ids. -/
theorem addH_ids_nodup (s : HistStore) (e : HistoryEntry) (hid : e.id = s.nextId)
    (hwf : WFStore s) : ((s.entries ++ [e]).map HistoryEntry.id).Nodup := by
  rw [List.map_append, List.nodup_append]
  refine ⟨hwf.1, by simp, ?_⟩
  intro a ha hb
  simp only [List.map_cons, List.map_nil, List.mem_singleton] at hb
  obtain ⟨x, hx, hxa⟩ := List.mem_map.1 ha
  have hlt := hwf.2 x hx
  omega

/-- Claim C2: after `add()` the store holds at most `maxItems` rows and no
row older than the retention window; `cleanup()` first removes every row
older than `now − retentionWindow`, then keeps exactly the `maxItems` most
recent of the remainder (by created_at, ties by id), so when the remainder
exceeds `maxItems` exactly `maxItems` rows remain. -/
theorem c2_history_invariants (cfg : HistConfig) (s : HistStore) (now : Int)
    (text : String) (dur : Int) (lang : Option String) (hwf : WFStore s) :
    countH (addH cfg s now text dur lang).2 ≤ cfg.maxItems ∧
    (∀ e ∈ (addH cfg s now text dur lang).2.entries, now - cfg.retentionWindow ≤ e.createdAt) ∧
    (cleanupH cfg s now).entries.Perm ((sortDesc (keptOf cfg s now)).take cfg.maxItems) ∧
    (∀ e ∈ (cleanupH cfg s now).entries, now - cfg.retentionWindow ≤ e.createdAt) ∧
    (cleanupH cfg s now).entries.length = min cfg.maxItems (keptOf cfg s now).length ∧
    (cfg.maxItems < (keptOf cfg s now).length →
      (cleanupH cfg s now).entries.length = cfg.maxItems) := by
  have hnodup1 :
      (((s.entries ++ [⟨s.nextId, text, dur, lang, now⟩]) : List HistoryEntry).map
        HistoryEntry.id).Nodup :=
    addH_ids_nodup s _ rfl hwf
  refine ⟨?_, ?_, cleanupH_perm cfg s now hwf.1, fun e he => cleanupH_cutoff cfg s now e he,
    cleanupH_length cfg s now hwf.1, ?_⟩
  · show (cleanupH cfg { entries := s.entries ++ [_], nextId := s.nextId + 1 } now).entries.length ≤ cfg.maxItems
    rw [cleanupH_length _ _ _ hnodup1]
    omega
  · intro e he
    exact cleanupH_cutoff cfg _ now e he
  · intro hgt
    rw [cleanupH_length cfg s now hwf.1]
    omega

/-- Witness for C2 at a concrete store of three rows, two of them stale. -/
theorem c2_history_invariants_witness :
    countH (addH ⟨2, 10⟩ ⟨[⟨1, "a", 0, none, 80⟩, ⟨2, "b", 0, none, 99⟩, ⟨3, "c", 0, none, 98⟩], 4⟩
      100 "d" 1 none).2 ≤ (2 : Nat) :=
  (c2_history_invariants ⟨2, 10⟩ _ 100 "d" 1 none (by constructor <;> decide)).1

theorem runH_cons (cfg : HistConfig) (s : HistStore) (op : HOp) (ops : List HOp) :
    runH cfg s (op :: ops) =
      ((runH cfg (applyH cfg s op).1 ops).1,
        (applyH cfg s op).2 ++ (runH cfg (applyH cfg s op).1 ops).2) :=
  rfl

@[simp] theorem cleanupH_nextId (cfg : HistConfig) (s : HistStore) (now : Int) :
    (cleanupH cfg s now).nextId = s.nextId :=
  rfl

/-- Along any operation sequence, every issued id is at least the starting
sequence value, the sequence value never decreases, and the issued ids are
strictly increasing. -/
theorem runH_ids (cfg : HistConfig) :
    ∀ (ops : List HOp) (s : HistStore),
      (∀ j ∈ (runH cfg s ops).2, s.nextId ≤ j) ∧
      s.nextId ≤ (runH cfg s ops).1.nextId ∧
      (runH cfg s ops).2.Pairwise (· < ·) := by
  intro ops
  induction ops with
  | nil =>
    intro s
    simp [runH]
  | cons op os ih =>
    intro s
    obtain ⟨h1, h2, h3⟩ := ih (applyH cfg s op).1
    cases op with
    | add now t d l =>
      have hnext : (applyH cfg s (HOp.add now t d l)).1.nextId = s.nextId + 1 := rfl
      have hiss : (applyH cfg s (HOp.add now t d l)).2 = [s.nextId] := rfl
      rw [hnext] at h1 h2
      have hfst : (runH cfg s (HOp.add now t d l :: os)).1 =
          (runH cfg (applyH cfg s (HOp.add now t d l)).1 os).1 := rfl
      refine ⟨?_, by rw [hfst]; omega, ?_⟩
      · intro j hj
        rw [runH_cons, hiss] at hj
        rcases List.mem_append.1 hj with hj | hj
        · simp at hj
          omega
        · have := h1 j hj
          omega
      · rw [runH_cons, hiss, List.singleton_append]
        refine List.Pairwise.cons ?_ h3
        intro j hj
        have := h1 j hj
        omega
    | del i =>
      have hnext : (applyH cfg s (HOp.del i)).1.nextId = s.nextId := rfl
      have hiss : (applyH cfg s (HOp.del i)).2 = [] := rfl
      rw [hnext] at h1 h2
      exact ⟨by rw [runH_cons, hiss, List.nil_append]; exact h1, h2,
        by rw [runH_cons, hiss, List.nil_append]; exact h3⟩
    | clear =>
      have hnext : (applyH cfg s HOp.clear).1.nextId = s.nextId := rfl
      have hiss : (applyH cfg s HOp.clear).2 = [] := rfl
      rw [hnext] at h1 h2
      exact ⟨by rw [runH_cons, hiss, List.nil_append]; exact h1, h2,
        by rw [runH_cons, hiss, List.nil_append]; exact h3⟩
    | cleanup now =>
      have hnext : (applyH cfg s (HOp.cleanup now)).1.nextId = s.nextId := rfl
      have hiss : (applyH cfg s (HOp.cleanup now)).2 = [] := rfl
      rw [hnext] at h1 h2
      exact ⟨by rw [runH_cons, hiss, List.nil_append]; exact h1, h2,
        by rw [runH_cons, hiss, List.nil_append]; exact h3⟩

/-- Claim C8: `clear()` leaves a count of 0, and along any operation
history from a fresh store — clears included — the ids issued by `add()`
are strictly increasing, so an id is never reused and an `add()` after
`clear()` gets an id above every id ever issued. -/
theorem c8_clear_and_fresh_ids (s : HistStore) (cfg : HistConfig) (ops : List HOp) :
    countH (clearH s) = 0 ∧
    (runH cfg initStore ops).2.Pairwise (· < ·) :=
  ⟨rfl, (runH_ids cfg ops initStore).2.2⟩

/-! ## Theorems: SQL LIKE and search -/

theorem toNat_ofNat_valid {n : Nat} (h : n < 55296) : (Char.ofNat n).toNat = n := by
  have hv : n.isValidChar := Or.inl h
  simp [Char.ofNat, hv, Char.ofNatAux, Char.toNat, UInt32.toNat]

theorem foldCaseNat_toLower (a : Char) : foldCaseNat (Char.toLower a) = foldCaseNat a := by
  unfold Char.toLower
  dsimp only
  split
  case isTrue h =>
    have hval : (Char.ofNat (a.toNat + 32)).toNat = a.toNat + 32 :=
      toNat_ofNat_valid (by omega)
    unfold foldCaseNat
    rw [hval, if_neg (by omega), if_pos (by omega)]
  case isFalse h => rfl

theorem toLower_ne_pct {a : Char} (h : a ≠ '%') : Char.toLower a ≠ '%' := by
  unfold Char.toLower
  dsimp only
  split
  case isTrue hc =>
    intro hcontra
    have := congrArg Char.toNat hcontra
    rw [toNat_ofNat_valid (by omega)] at this
    have h37 : ('%' : Char).toNat = 37 := rfl
    omega
  case isFalse hc => exact h

theorem toLower_ne_usc {a : Char} (h : a ≠ '_') : Char.toLower a ≠ '_' := by
  unfold Char.toLower
  dsimp only
  split
  case isTrue hc =>
    intro hcontra
    have := congrArg Char.toNat hcontra
    rw [toNat_ofNat_valid (by omega)] at this
    have h95 : ('_' : Char).toNat = 95 := rfl
    omega
  case isFalse hc => exact h

theorem charLikeEq_toLower_left (a c : Char) :
    charLikeEq (Char.toLower a) c = charLikeEq a c := by
  unfold charLikeEq
  rw [foldCaseNat_toLower]

theorem charLikeEq_toLower_right (a c : Char) :
    charLikeEq a (Char.toLower c) = charLikeEq a c := by
  unfold charLikeEq
  rw [foldCaseNat_toLower]

/-- Lower-casing the pattern does not change what LIKE matches: the matcher
is case-insensitive in the pattern. -/
theorem likeFuel_map_toLower :
    ∀ (f : Nat) (p t : List Char), likeFuel f (p.map Char.toLower) t = likeFuel f p t := by
  intro f
  induction f with
  | zero => intro p t; rfl
  | succ f ih =>
    intro p t
    cases p with
    | nil => rfl
    | cons p0 p =>
      rw [List.map_cons]
      by_cases hp : p0 = '%'
      · subst hp
        have hl : Char.toLower '%' = '%' := by decide
        rw [hl]
        cases t with
        | nil => simp [likeFuel, ih]
        | cons c t' =>
          have i1 := ih p (c :: t')
          have i2 : likeFuel f ('%' :: List.map Char.toLower p) t' = likeFuel f ('%' :: p) t' := by
            have h2 := ih ('%' :: p) t'
            simpa [hl] using h2
          simp [likeFuel, i1, i2]
      · have hp' : Char.toLower p0 ≠ '%' := toLower_ne_pct hp
        by_cases hu : p0 = '_'
        · subst hu
          have hl : Char.toLower '_' = '_' := by decide
          rw [hl]
          cases t with
          | nil => simp [likeFuel]
          | cons c t' => simp [likeFuel, ih]
        · have hu' : Char.toLower p0 ≠ '_' := toLower_ne_usc hu
          cases t with
          | nil => simp [likeFuel, hp, hu, hp', hu']
          | cons c t' => simp [likeFuel, hp, hu, hp', hu', ih, charLikeEq_toLower_left]

/-- Lower-casing the text does not change what LIKE matches: the matcher is
case-insensitive in the text. -/
theorem likeFuel_text_toLower :
    ∀ (f : Nat) (p t : List Char), likeFuel f p (t.map Char.toLower) = likeFuel f p t := by
  intro f
  induction f with
  | zero => intro p t; rfl
  | succ f ih =>
    intro p t
    cases p with
    | nil => cases t <;> rfl
    | cons p0 p =>
      by_cases hp : p0 = '%'
      · subst hp
        cases t with
        | nil => simp [likeFuel, ih]
        | cons c t' =>
          have i1 := ih p (c :: t')
          have i2 := ih ('%' :: p) t'
          simp only [List.map_cons] at i1 i2
          simp [likeFuel, i1, i2]
      · by_cases hu : p0 = '_'
        · subst hu
          cases t with
          | nil => simp [likeFuel]
          | cons c t' =>
            have i1 := ih p t'
            simp [likeFuel, i1]
        · cases t with
          | nil => simp [likeFuel, hp, hu]
          | cons c t' =>
            have i1 := ih p t'
            simp [likeFuel, hp, hu, i1, charLikeEq_toLower_right]

theorem likeMatch_map_toLower (p t : List Char) :
    likeMatch (p.map Char.toLower) t = likeMatch p t := by
  unfold likeMatch
  rw [List.length_map]
  exact likeFuel_map_toLower _ p t

theorem likeMatch_text_toLower (p t : List Char) :
    likeMatch p (t.map Char.toLower) = likeMatch p t := by
  unfold likeMatch
  rw [List.length_map]
  exact likeFuel_text_toLower _ p t

/-- Claim C10: `search(query, limit)` returns at most `limit` rows, most
recent first, each a stored row whose text matches `%query%` under SQLite
LIKE; the store itself is untouched. The LIKE match is case-insensitive for
ASCII letters on both sides, and a `%` or `_` inside the query keeps its
wildcard meaning (the query is interpolated unescaped): `_` matches any one
character and `%` any span. -/
theorem c10_search_contract (s : HistStore) (q : String) (limit : Nat) :
    (searchH s q limit).length ≤ limit ∧
    (searchH s q limit).Pairwise (fun a b => b.createdAt ≤ a.createdAt) ∧
    (∀ e ∈ searchH s q limit, e ∈ s.entries ∧ likeMatch (likePattern q) e.text.data = true) ∧
    (searchOp s q limit).1 = s ∧
    (∀ (p t : List Char), likeMatch (p.map Char.toLower) t = likeMatch p t) ∧
    (∀ (p t : List Char), likeMatch p (t.map Char.toLower) = likeMatch p t) ∧
    likeMatch (likePattern "a_c") "xabcy".data = true ∧
    likeMatch (likePattern "b%d") "abxyzde".data = true ∧
    likeMatch (likePattern "HELLO") "say hello!".data = true := by
  refine ⟨?_, ?_, ?_, rfl, likeMatch_map_toLower, likeMatch_text_toLower,
    by decide, by decide, by decide⟩
  · simpa [searchH] using
      List.length_take_le limit (sortDesc (s.entries.filter
        (fun e => likeMatch (likePattern q) e.text.data)))
  · have hs : List.Sorted keyLe
        (sortDesc (s.entries.filter (fun e => likeMatch (likePattern q) e.text.data))) :=
      List.sorted_insertionSort keyLe _
    have ht : List.Sorted keyLe (searchH s q limit) :=
      List.Pairwise.sublist (List.take_sublist _ _) hs
    exact ht.imp (fun hab => by unfold keyLe at hab; omega)
  · intro e he
    unfold searchH at he
    have h1 := (List.take_sublist _ _).subset he
    have h2 : e ∈ s.entries.filter (fun e => likeMatch (likePattern q) e.text.data) :=
      (List.perm_insertionSort keyLe _).mem_iff.1 h1
    have h3 := List.mem_filter.1 h2
    exact ⟨h3.1, h3.2⟩

end Koe
